import Mathlib

/-!
Verification of the luminate data-loading pipeline (`src/util.py`).

The Python source is shallowly embedded: each line of an input file is given
to the parsers already split on the separator (the file read and the
`str.split` at the I/O boundary), numeric cells are rational numbers, and a
Python-level failure (a fatal `print_error_and_die` diagnostic or an uncaught
exception) is an `Except` error.  Numpy operations are modelled on lists:
`np.unique` is sort-plus-dedup, `np.argsort` column reordering is a stable
sort by the key row, and boolean-mask selection is a filter in original
order.
-/

namespace Luminate

/-- Failure conditions a `util.py` call can end in.  The three "uncaught"
constructors model Python exceptions that escape the function; the three
message-carrying constructors model the fatal `print_error_and_die`
diagnostics (classified per the error taxonomy: cell parse failure,
structural mismatch, violated non-negativity invariant). -/
inductive PyErr where
  | indexError
  | typeError
  | valueError
  | parseError (msg : String)
  | formatError (msg : String)
  | invariantError (msg : String)
  | keyError (key : String)
deriving DecidableEq

instance {e a : Type} [DecidableEq e] [DecidableEq a] : DecidableEq (Except e a) := fun x y =>
  match x, y with
  | .ok u, .ok v => decidable_of_iff (u = v) (by simp)
  | .error u, .error v => decidable_of_iff (u = v) (by simp)
  | .ok _, .error _ => isFalse (by simp)
  | .error _, .ok _ => isFalse (by simp)

instance (a b : String) : Decidable (a < b) :=
  decidable_of_iff _ String.lt_iff_toList_lt.symm

instance (a b : String) : Decidable (a ≤ b) :=
  decidable_of_iff _ String.le_iff_toList_le.symm

/-- Value of a digit string, `none` if some character is not a digit.
An empty list yields `some 0`; callers rule the empty case out. -/
def digitsToNat (cs : List Char) : Option Nat :=
  cs.foldl (fun acc c => acc.bind fun n =>
    if c.isDigit then some (n * 10 + (c.toNat - 48)) else none) (some 0)

/-- Python's `float()` on the decimal-literal fragment: optional sign,
digits, optional decimal point.  (Exponents, `inf`/`nan` and surrounding
whitespace are outside the fragment the repository's tables use.)  Returns
`none` where `float()` raises `ValueError`. -/
def pyFloat (s : String) : Option ℚ :=
  match s.data with
  | [] => none
  | cs =>
    let p : Int × List Char :=
      match cs with
      | '-' :: rest => (-1, rest)
      | '+' :: rest => (1, rest)
      | _ => (1, cs)
    match p.2.splitOn '.' with
    | [ip] =>
      if ip = [] then none else (digitsToNat ip).map (fun n => ((p.1 * n : Int) : ℚ))
    | [ip, fp] =>
      if ip = [] ∧ fp = [] then none
      else
        match digitsToNat ip, digitsToNat fp with
        | some n, some f => some ((p.1 : ℚ) * ((n : ℚ) + (f : ℚ) / ((10 : ℚ) ^ fp.length)))
        | _, _ => none
    | _ => none

/-- Numeric matrix as a list of rows. -/
abbrev Mat := List (List ℚ)

/-- Entry `m[i][j]`, `0` out of range (in-range use is always guarded). -/
def getMat (m : Mat) (i j : Nat) : ℚ := (m.getD i []).getD j 0

/-- Zero matrix of `r` rows and `c` columns (`np.zeros((r, c))`). -/
def zeroMat (r c : Nat) : Mat := List.replicate r (List.replicate c 0)

/-- Shape predicate: `r` rows, each of width `w`. -/
def MatDims (m : Mat) (r w : Nat) : Prop :=
  m.length = r ∧ ∀ row ∈ m, row.length = w

instance (m : Mat) (r w : Nat) : Decidable (MatDims m r w) := by
  unfold MatDims; infer_instance

/-- Row loop of `parse_otu_table` (util.py lines 56-79).  `idx` enumerates
the data lines (`lines[1:]`).  On a column-count mismatch the source builds
its diagnostic by concatenating the *int* `n_col` to a string without
`str()` (line 66), so Python raises `TypeError` before
`print_error_and_die` runs; the mismatch branch therefore yields
`.typeError`.  The negative-entry check only fires for `idx > 1`. -/
def parse_otu_table_rows (n_col : Nat) (has_rownames : Bool) :
    Nat → List (List String) → Except PyErr (List (List ℚ))
  | _, [] => .ok []
  | idx, l :: ls =>
    let line := if has_rownames then l.tail else l
    if line.length ≠ n_col then
      .error .typeError
    else
      match line.mapM pyFloat with
      | none => .error (.parseError ("Error parsing OTU table: invalid character in row "
          ++ toString idx))
      | some row =>
        if 1 < idx ∧ ∃ x ∈ row, x < 0 then
          .error (.invariantError ("Error parsing OTU table: row " ++ toString idx
            ++ " has negative entry."))
        else
          (parse_otu_table_rows n_col has_rownames (idx + 1) ls).map (row :: ·)

/-- Embedding of `parse_otu_table` (util.py lines 8-81).  The header line
gives the per-column sequence ids (first column dropped when
`has_rownames`); the remaining lines become the numeric table, row 0 being
the time points. -/
def parse_otu_table (lines : List (List String)) (has_rownames : Bool) :
    Except PyErr (List String × Mat) :=
  match lines with
  | [] => .error .indexError
  | header :: rest =>
    let n_col := if has_rownames then header.length - 1 else header.length
    let seq_id := if has_rownames then header.tail else header
    (parse_otu_table_rows n_col has_rownames 0 rest).map (fun t => (seq_id, t))

/-- One event record: dense event-type index, start day, end day,
magnitude.  The source stores these as a 4-float numpy row and casts the
index back with `int(...)` at use. -/
structure EventRec where
  idx : Nat
  start_day : ℚ
  end_day : ℚ
  size : ℚ
deriving DecidableEq

/-- Result of `parse_event_table`: the event records in input order, the
name-to-integer dictionary (as an association list), the per-row sequence
ids, and the type names in first-seen order. -/
structure EvParse where
  events : List EventRec
  event_to_int : List (String × Nat)
  seq_id : List String
  event_types : List String
deriving DecidableEq

/-- First-seen accumulation of event-type names: the body of
`if line[1] not in event_types: event_types.append(line[1])` folded over a
name list, starting from accumulator `acc`. -/
def foldFS (acc : List String) (l : List String) : List String :=
  l.foldl (fun a x => if x ∈ a then a else a ++ [x]) acc

/-- Event-type names of a name list in order of first appearance. -/
def firstSeen (l : List String) : List String := foldFS [] l

/-- Index of the first occurrence of `x` in `l` (Python `dict` value built
by `enumerate` over a duplicate-free list; equals the list position). -/
def idxIn : List String → String → Nat
  | [], _ => 0
  | a :: l, x => if a = x then 0 else idxIn l x + 1

/-- Validation pass of `parse_event_table` (util.py lines 124-142): checks
each row's column count against the header's and that columns 3 and 4
(indices 2 and 3) parse as floats, while collecting event-type names in
first-seen order.  `idx` is the reported row number (starts at 1 when the
table has a header).  Subscripts past the row's length raise IndexError. -/
def firstPass (n_col : Nat) : Nat → List String → List (List String) →
    Except PyErr (List String)
  | _, acc, [] => .ok acc
  | idx, acc, l :: ls =>
    if l.length ≠ n_col then
      .error (.formatError ("Error parsing event table: row " ++ toString idx ++ " has "
        ++ toString l.length ++ " columns, but header has " ++ toString n_col ++ "."))
    else if l.length ≤ 2 then .error .indexError
    else
      match pyFloat (l.getD 2 "") with
      | none => .error (.parseError ("Error parsing event table: row " ++ toString idx
          ++ " has an invalid entry for start day or end day."))
      | some _ =>
        if l.length ≤ 3 then .error .indexError
        else
          match pyFloat (l.getD 3 "") with
          | none => .error (.parseError ("Error parsing event table: row " ++ toString idx
              ++ " has an invalid entry for start day or end day."))
          | some _ =>
            firstPass n_col (idx + 1)
              (if l.getD 1 "" ∈ acc then acc else acc ++ [l.getD 1 ""]) ls

/-- Materialization pass of `parse_event_table` (util.py lines 149-157):
one `EventRec` per row.  The magnitude is `float(line[4])` when a 5th
column exists — this conversion sits outside any `try`, so a non-numeric
magnitude is an uncaught `ValueError` — and defaults to `1` otherwise. -/
def secondPass (e2i : List (String × Nat)) :
    List (List String) → Except PyErr (List EventRec × List String)
  | [] => .ok ([], [])
  | l :: ls =>
    match e2i.lookup (l.getD 1 "") with
    | none => .error (.keyError (l.getD 1 ""))
    | some e_idx =>
      match pyFloat (l.getD 2 ""), pyFloat (l.getD 3 "") with
      | some sd, some ed =>
        match (if 4 < l.length then pyFloat (l.getD 4 "") else some 1) with
        | none => .error .valueError
        | some sz =>
          match secondPass e2i ls with
          | .error e => .error e
          | .ok (evs, sids) => .ok (⟨e_idx, sd, ed, sz⟩ :: evs, l.getD 0 "" :: sids)
      | _, _ => .error .valueError

/-- Embedding of `parse_event_table` (util.py lines 84-159): drop the
header when present, validate and collect type names, build the
`event_to_int` dictionary by enumeration, then materialize the records. -/
def parse_event_table (lines : List (List String)) (has_header : Bool) :
    Except PyErr EvParse :=
  let rows := if has_header then lines.tail else lines
  match rows with
  | [] => .error .indexError
  | l0 :: _ =>
    match firstPass l0.length (if has_header then 1 else 0) [] rows with
    | .error e => .error e
    | .ok event_types =>
      let e2i := event_types.enum.map (fun p => (p.2, p.1))
      match secondPass e2i rows with
      | .error e => .error e
      | .ok (events, seq_ids) => .ok ⟨events, e2i, seq_ids, event_types⟩

/-- Windowing condition of the event encoder for day slot `i` (util.py
lines 215-218).  The source's `if`/`elif` pair writes the same value in
both branches, so it is the disjunction of the two guards: the day lies in
`[start_day, end_day]` inclusive, or the event starts at or after `day[i]`,
ends at or before `day[i+1]`, and starts strictly before `day[i+1]`. -/
def windowCond (days : List ℚ) (i : Nat) (ev : EventRec) : Prop :=
  (ev.start_day ≤ days.getD i 0 ∧ days.getD i 0 ≤ ev.end_day)
  ∨ (days.getD i 0 ≤ ev.start_day ∧ ev.end_day ≤ days.getD (i + 1) 0
      ∧ ev.start_day < days.getD (i + 1) 0)

instance (days : List ℚ) (i : Nat) (ev : EventRec) : Decidable (windowCond days i ev) := by
  unfold windowCond; infer_instance

/-- Processing of one event record against a subject's day grid (util.py
lines 202-220).  The source loop writes each matrix row at most once per
event — slot `i` for `i < len(days) - 1` when the window condition holds,
and the last slot unconditionally (`magnitude` if the event starts exactly
on the last day, else `0`) — so the update is expressed row-wise. -/
def applyEvent (days : List ℚ) (ev : EventRec) (eff : Mat) : Mat :=
  (List.range days.length).map (fun i =>
    let row := eff.getD i []
    if i = days.length - 1 then
      row.set ev.idx (if ev.start_day = days.getLastD 0 then ev.size else 0)
    else if windowCond days i ev then
      row.set ev.idx ev.size
    else row)

/-- Effect matrix of a subject: events folded, in table order, over the zero
matrix of shape `(len(days), numTypes)` (util.py lines 199-220). -/
def encodeEvents (days : List ℚ) (evs : List EventRec) (numTypes : Nat) : Mat :=
  evs.foldl (fun m e => applyEvent days e m) (zeroMat days.length numTypes)

/-- Columns of the table belonging to sequence id `s`, in original column
order.  Models `otu_table[:, otu_seq_id == s]` after the stable-sort
reordering by sequence id (which preserves the relative order of a
subject's own columns). -/
def subjectCols (table : Mat) (ids : List String) (s : String) : Mat :=
  ((List.range ids.length).filter (fun j => decide (ids.getD j "" = s))).map
    (fun j => table.map (fun row => row.getD j 0))

/-- Comparison of two columns by their time entry (row 0), the key of
`np.argsort(seq[0])`. -/
def colLE (c1 c2 : List ℚ) : Prop := c1.headD 0 ≤ c2.headD 0

instance : DecidableRel colLE := fun c1 c2 =>
  inferInstanceAs (Decidable (c1.headD 0 ≤ c2.headD 0))

instance : IsTotal (List ℚ) colLE := ⟨fun c1 c2 => le_total (c1.headD 0) (c2.headD 0)⟩

instance : IsTrans (List ℚ) colLE := ⟨fun _ _ _ h1 h2 => le_trans h1 h2⟩

/-- A subject's columns sorted by day (`seq = seq[:, np.argsort(seq[0])]`,
modelled with a stable sort). -/
def sortedCols (table : Mat) (ids : List String) (s : String) : Mat :=
  List.insertionSort colLE (subjectCols table ids s)

/-- A subject's day vector: row 0 of its day-sorted columns. -/
def subjectDays (table : Mat) (ids : List String) (s : String) : List ℚ :=
  (sortedCols table ids s).map (fun c => c.headD 0)

/-- First column of `cols` whose day entry equals `d`:
`idx = np.argwhere(days == day)` followed by `row[:, 0]` (with a warning
when several columns match, util.py lines 189-194). -/
def firstColAt (cols : Mat) (d : ℚ) : List ℚ :=
  (cols.filter (fun c => decide (c.headD 0 = d))).headD []

/-- A subject's count matrix: for each entry of the day vector (duplicates
included) the first matching column with its time row dropped (util.py
lines 187-196). -/
def subjectY (table : Mat) (ids : List String) (s : String) : Mat :=
  (subjectDays table ids s).map (fun d =>
    (firstColAt (sortedCols table ids s) d).tail)

/-- Event records of subject `s`: `event_table[event_seq_id == s, :]`. -/
def subjectEvents (events : List EventRec) (eseq : List String) (s : String) :
    List EventRec :=
  ((eseq.zip events).filter (fun p => decide (p.1 = s))).map (fun p => p.2)

/-- A subject's effect matrix (util.py lines 198-223): encoded events when
an event table was supplied, else the single always-zero column. -/
def subjectU (table : Mat) (ids : List String) (s : String)
    (evInfo : Option (List EventRec × List String × Nat)) : Mat :=
  let days := subjectDays table ids s
  match evInfo with
  | none => zeroMat days.length 1
  | some (events, eseq, numTypes) =>
      encodeEvents days (subjectEvents events eseq s) numTypes

/-- Sorted deduplicated list: the semantics of `np.unique` on an id list. -/
def np_unique (l : List String) : List String :=
  List.insertionSort (fun a b : String => a ≤ b) l.dedup

/-- Output of `format_observations`: parallel per-subject lists. -/
structure Obs where
  IDs : List String
  Y : List Mat
  U : List Mat
  T : List (List ℚ)
deriving DecidableEq

/-- Embedding of `format_observations` (util.py lines 162-229).  The source
appends one `(Y, U, T)` triple per iteration of
`for s_id in np.unique(otu_seq_id)`; the per-subject loop body is the map
argument.  `evInfo` carries `(event_table, event_seq_id, len(event_to_int))`
when an event table was parsed. -/
def format_observations (table : Mat) (ids : List String)
    (evInfo : Option (List EventRec × List String × Nat)) : Obs :=
  { IDs := np_unique ids
    Y := (np_unique ids).map (subjectY table ids)
    U := (np_unique ids).map (fun s => subjectU table ids s evInfo)
    T := (np_unique ids).map (subjectDays table ids) }

/-- Embedding of `load_observations` (util.py lines 232-257).  `eventLines`
is `none` when `event_filename` is the empty string; otherwise the event
table's lines.  Returns the observations together with the event type
names (`None` in Python, here `none`, without an event table). -/
def load_observations (otuLines : List (List String))
    (eventLines : Option (List (List String))) :
    Except PyErr (Obs × Option (List String)) :=
  match parse_otu_table otuLines true with
  | .error e => .error e
  | .ok (seq_id, table) =>
    match eventLines with
    | none => .ok (format_observations table seq_id none, none)
    | some ls =>
      match parse_event_table ls true with
      | .error e => .error e
      | .ok r =>
        .ok (format_observations table seq_id
          (some (r.events, r.seq_id, r.event_to_int.length)), some r.event_types)

/-- Prediction dictionary of `write_table` (util.py lines 270-274): keys
are (subject id, day), values the predicted row for that time point.  The
float-string round trip `str(float(...))` used by the source on both the
insertion and the lookup side is modelled by keying on the numeric day
value itself. -/
def build_predictions (IDs : List String) (Y_pred : List Mat) (T : List (List ℚ)) :
    List ((String × ℚ) × List ℚ) :=
  (IDs.zip (Y_pred.zip T)).foldl (fun acc p =>
    acc ++ p.2.2.enum.map (fun td => ((p.1, td.2), p.2.1.getD td.1 []))) []

/-- Python `dict` lookup over insertion-ordered entries: the last binding
of a key wins. -/
def dictLookup (entries : List ((String × ℚ) × List ℚ)) (k : String × ℚ) :
    Option (List ℚ) :=
  (entries.reverse.find? (fun e => decide (e.1 = k))).map (fun e => e.2)

/-- Body of the column loop of `write_table` (util.py lines 279-283) for
column `j + 1` of the reference table: subject id from row 0, day from
row 1 converted with `float` (an unparsable day cell is an uncaught
`ValueError`), then the dictionary lookup whose miss is a `KeyError`. -/
def wtStep (preds : List ((String × ℚ) × List ℚ)) (in_table : List (List String))
    (j : Nat) : Except PyErr (List ℚ) :=
  match pyFloat ((in_table.getD 1 []).getD (j + 1) "") with
  | none => .error .valueError
  | some d =>
    match dictLookup preds ((in_table.getD 0 []).getD (j + 1) "", d) with
    | none => .error (.keyError ((in_table.getD 0 []).getD (j + 1) "" ++ ","
        ++ toString d))
    | some v => .ok v

/-- Embedding of `write_table` (util.py lines 269-291): build the
prediction dictionary, then look up one prediction per data column of the
reference table.  The observable result is the per-column prediction list
placed into `out_table[2:, 1:]`; copying the header and label rows and
writing the file are the I/O boundary. -/
def write_table (IDs : List String) (Y_pred : List Mat) (T : List (List ℚ))
    (in_table : List (List String)) : Except PyErr (List (List ℚ)) :=
  (List.range ((in_table.headD []).length - 1)).mapM
    (wtStep (build_predictions IDs Y_pred T) in_table)

/-! Helper lemmas. -/

lemma getD_range_map {α : Type} (f : Nat → α) (n i : Nat) (d : α) (h : i < n) :
    ((List.range n).map f).getD i d = f i := by
  have hlen : i < ((List.range n).map f).length := by simpa using h
  rw [List.getD_eq_getElem _ _ hlen, List.getElem_map, List.getElem_range]

lemma getD_map {α β : Type} (f : α → β) (l : List α) (i : Nat) (d : α) (db : β)
    (h : i < l.length) : (l.map f).getD i db = f (l.getD i d) := by
  have h2 : i < (l.map f).length := by simpa using h
  rw [List.getD_eq_getElem _ _ h2, List.getElem_map, List.getD_eq_getElem _ _ h]

lemma getD_set_self (l : List ℚ) (j : Nat) (v : ℚ) (h : j < l.length) :
    (l.set j v).getD j 0 = v := by
  have h2 : j < (l.set j v).length := by simpa using h
  rw [List.getD_eq_getElem _ _ h2, List.getElem_set_self]

lemma row_length_of_dims (eff : Mat) (r w i : Nat) (hdim : MatDims eff r w)
    (hi : i < r) : (eff.getD i []).length = w := by
  have h1 : i < eff.length := hdim.1 ▸ hi
  rw [List.getD_eq_getElem _ _ h1]
  exact hdim.2 _ (List.getElem_mem h1)

lemma getMat_applyEvent_window (days : List ℚ) (ev : EventRec) (eff : Mat) (w i : Nat)
    (hdim : MatDims eff days.length w) (hidx : ev.idx < w) (hi : i + 1 < days.length)
    (hcond : windowCond days i ev) :
    getMat (applyEvent days ev eff) i ev.idx = ev.size := by
  have hilt : i < days.length := Nat.lt_of_succ_lt hi
  have hne : i ≠ days.length - 1 := by omega
  have hrow : (eff.getD i []).length = w := row_length_of_dims eff days.length w i hdim hilt
  rw [getMat, applyEvent, getD_range_map _ _ _ _ hilt]
  simp only [hne, if_false, hcond, if_true]
  exact getD_set_self _ _ _ (hrow ▸ hidx)

lemma subjectDays_sorted (table : Mat) (ids : List String) (s : String) :
    List.Sorted (· ≤ ·) (subjectDays table ids s) :=
  List.Pairwise.map _ (fun _ _ hab => hab)
    (List.sorted_insertionSort colLE (subjectCols table ids s))

lemma subjectDays_perm (table : Mat) (ids : List String) (s : String) :
    (subjectDays table ids s).Perm ((subjectCols table ids s).map (fun c => c.headD 0)) :=
  (List.perm_insertionSort colLE (subjectCols table ids s)).map _

lemma subjectDays_sorted_lt (table : Mat) (ids : List String) (s : String)
    (h : ((subjectCols table ids s).map (fun c => c.headD 0)).Nodup) :
    List.Sorted (· < ·) (subjectDays table ids s) :=
  (subjectDays_sorted table ids s).lt_of_le
    ((subjectDays_perm table ids s).nodup_iff.mpr h)

lemma subjectY_length (table : Mat) (ids : List String) (s : String) :
    (subjectY table ids s).length = (subjectDays table ids s).length := by
  simp [subjectY]

lemma np_unique_sorted (l : List String) : List.Sorted (· < ·) (np_unique l) :=
  (List.sorted_insertionSort _ l.dedup).lt_of_le
    ((List.perm_insertionSort _ l.dedup).nodup_iff.mpr (List.nodup_dedup l))

lemma np_unique_mem (l : List String) (x : String) : x ∈ np_unique l ↔ x ∈ l :=
  (List.mem_insertionSort _).trans List.mem_dedup

lemma applyEvent_length (days : List ℚ) (ev : EventRec) (eff : Mat) :
    (applyEvent days ev eff).length = days.length := by
  simp [applyEvent]

lemma encodeEvents_length (days : List ℚ) (evs : List EventRec) (numTypes : Nat) :
    (encodeEvents days evs numTypes).length = days.length := by
  rw [encodeEvents]
  suffices h : ∀ m : Mat, m.length = days.length →
      (evs.foldl (fun m e => applyEvent days e m) m).length = days.length by
    exact h _ (by simp [zeroMat])
  induction evs with
  | nil => exact fun m hm => hm
  | cons e evs ih => exact fun m _ => ih _ (applyEvent_length days e m)

lemma subjectU_length (table : Mat) (ids : List String) (s : String)
    (evInfo : Option (List EventRec × List String × Nat)) :
    (subjectU table ids s evInfo).length = (subjectDays table ids s).length := by
  cases evInfo with
  | none => simp [subjectU, zeroMat]
  | some p => exact encodeEvents_length _ _ _

lemma getMat_applyEvent_last (days : List ℚ) (ev : EventRec) (eff : Mat) (w : Nat)
    (hdim : MatDims eff days.length w) (hidx : ev.idx < w) (hne : days ≠ []) :
    getMat (applyEvent days ev eff) (days.length - 1) ev.idx
      = if ev.start_day = days.getLastD 0 then ev.size else 0 := by
  have hpos : 0 < days.length := List.length_pos.mpr hne
  have hilt : days.length - 1 < days.length := by omega
  have hrow : (eff.getD (days.length - 1) []).length = w :=
    row_length_of_dims eff days.length w _ hdim hilt
  rw [getMat, applyEvent, getD_range_map _ _ _ _ hilt]
  simp only [if_pos rfl]
  exact getD_set_self _ _ _ (hrow ▸ hidx)

lemma parse_otu_table_rows_nonneg (n : Nat) (b : Bool) :
    ∀ (rows : List (List String)) (idx : Nat) (out : List (List ℚ)),
      parse_otu_table_rows n b idx rows = .ok out →
      ∀ k, 1 < idx + k → ∀ x ∈ out.getD k [], 0 ≤ x := by
  intro rows
  induction rows with
  | nil =>
    intro idx out h k hk x hx
    rw [parse_otu_table_rows] at h
    have hout : ([] : List (List ℚ)) = out := Except.ok.inj h
    subst hout
    simp at hx
  | cons l ls ih =>
    intro idx out h k hk x hx
    simp only [parse_otu_table_rows] at h
    generalize (if b = true then l.tail else l) = line at h
    split at h
    · exact absurd h (by simp)
    · split at h
      · exact absurd h (by simp)
      · rename_i row hrow
        split at h
        · exact absurd h (by simp)
        · rename_i hneg
          cases hrec : parse_otu_table_rows n b (idx + 1) ls with
          | error e => rw [hrec] at h; exact absurd h (by simp [Except.map])
          | ok rest =>
            rw [hrec] at h
            have hout : row :: rest = out := by simpa [Except.map] using h
            subst hout
            cases k with
            | zero =>
              have hidx : 1 < idx := by omega
              have hnone : ¬ ∃ y ∈ row, y < 0 := fun hex => hneg ⟨hidx, hex⟩
              have hxrow : x ∈ row := by simpa using hx
              exact le_of_not_lt (fun hlt => hnone ⟨x, hxrow, hlt⟩)
            | succ k =>
              exact ih (idx + 1) rest hrec k (by omega) x (by simpa using hx)

lemma foldFS_cons (acc : List String) (x : String) (l : List String) :
    foldFS acc (x :: l) = foldFS (if x ∈ acc then acc else acc ++ [x]) l := rfl

lemma mem_foldFS (x : String) : ∀ (l acc : List String),
    x ∈ foldFS acc l ↔ x ∈ acc ∨ x ∈ l := by
  intro l
  induction l with
  | nil => intro acc; simp [foldFS]
  | cons y l ih =>
    intro acc
    rw [foldFS_cons, ih]
    by_cases hy : y ∈ acc
    · simp only [if_pos hy, List.mem_cons]
      constructor
      · exact fun h => h.imp_right Or.inr
      · rintro (h | rfl | h)
        · exact Or.inl h
        · exact Or.inl hy
        · exact Or.inr h
    · simp only [if_neg hy, List.mem_append, List.mem_singleton, List.mem_cons]
      tauto

lemma foldFS_suffix : ∀ (l acc : List String), ∃ r, foldFS acc l = acc ++ r := by
  intro l
  induction l with
  | nil => intro acc; exact ⟨[], by simp [foldFS]⟩
  | cons y l ih =>
    intro acc
    rw [foldFS_cons]
    by_cases hy : y ∈ acc
    · rw [if_pos hy]; exact ih acc
    · rw [if_neg hy]
      obtain ⟨r, hr⟩ := ih (acc ++ [y])
      exact ⟨y :: r, by rw [hr, List.append_assoc]; rfl⟩

lemma nodup_foldFS : ∀ (l acc : List String), acc.Nodup → (foldFS acc l).Nodup := by
  intro l
  induction l with
  | nil => intro acc h; simpa [foldFS] using h
  | cons y l ih =>
    intro acc h
    rw [foldFS_cons]
    by_cases hy : y ∈ acc
    · rw [if_pos hy]; exact ih acc h
    · rw [if_neg hy]
      exact ih _ (by simp [List.nodup_append, h, hy])

lemma idxIn_append_cons (x : String) : ∀ (l1 l2 : List String), x ∉ l1 →
    idxIn (l1 ++ x :: l2) x = l1.length := by
  intro l1
  induction l1 with
  | nil => intro l2 _; simp [idxIn]
  | cons a t ih =>
    intro l2 hx
    have ha : ¬ a = x := fun h => hx (by simp [h])
    simp only [List.cons_append, idxIn, if_neg ha, List.length_cons]
    show idxIn (t ++ x :: l2) x + 1 = t.length + 1
    rw [ih l2 (fun h => hx (List.mem_cons_of_mem a h))]

lemma idxIn_lt_length : ∀ (l : List String) (x : String), x ∈ l → idxIn l x < l.length := by
  intro l
  induction l with
  | nil => intro x h; cases h
  | cons a t ih =>
    intro x h
    by_cases hax : a = x
    · simp [idxIn, hax]
    · have hxt : x ∈ t := by
        rcases List.mem_cons.mp h with h1 | h1
        · exact absurd h1.symm hax
        · exact h1
      simp only [idxIn, if_neg hax, List.length_cons]
      exact Nat.succ_lt_succ (ih x hxt)

lemma getD_idxIn : ∀ (l : List String) (x : String), x ∈ l → l.getD (idxIn l x) "" = x := by
  intro l
  induction l with
  | nil => intro x h; cases h
  | cons a t ih =>
    intro x h
    by_cases hax : a = x
    · simp [idxIn, hax]
    · have hxt : x ∈ t := by
        rcases List.mem_cons.mp h with h1 | h1
        · exact absurd h1.symm hax
        · exact h1
      simp only [idxIn, if_neg hax, List.getD_cons_succ]
      exact ih x hxt

lemma idxIn_getD : ∀ (l : List String), l.Nodup → ∀ k, k < l.length →
    idxIn l (l.getD k "") = k := by
  intro l
  induction l with
  | nil => intro _ k hk; simp at hk
  | cons a t ih =>
    intro hnd k hk
    cases k with
    | zero => simp [idxIn]
    | succ k =>
      have hkt : k < t.length := Nat.lt_of_succ_lt_succ hk
      have hmem : t.getD k "" ∈ t := by
        rw [List.getD_eq_getElem _ _ hkt]; exact List.getElem_mem hkt
      have hne : ¬ a = t.getD k "" := fun h => (List.nodup_cons.mp hnd).1 (h ▸ hmem)
      simp only [List.getD_cons_succ, idxIn, if_neg hne]
      rw [ih (List.nodup_cons.mp hnd).2 k hkt]

lemma length_firstSeen_eq_dedup (l : List String) :
    (firstSeen l).length = l.dedup.length := by
  have h1 : (firstSeen l).Nodup := nodup_foldFS l [] (by simp)
  have h2 : l.dedup.Nodup := List.nodup_dedup l
  have h3 : (firstSeen l).toFinset = l.dedup.toFinset := by
    ext a
    simp only [List.mem_toFinset, List.mem_dedup, firstSeen]
    rw [mem_foldFS]
    simp
  calc (firstSeen l).length = (firstSeen l).toFinset.card :=
        (List.toFinset_card_of_nodup h1).symm
    _ = l.dedup.toFinset.card := by rw [h3]
    _ = l.dedup.length := List.toFinset_card_of_nodup h2

lemma firstSeen_rank (l1 : List String) (x : String) (l2 : List String) (hx : x ∉ l1) :
    idxIn (firstSeen (l1 ++ x :: l2)) x = l1.dedup.length := by
  have hxA : x ∉ firstSeen l1 := by
    intro h
    rcases (mem_foldFS x l1 []).mp h with h1 | h1
    · simp at h1
    · exact hx h1
  have h1 : firstSeen (l1 ++ x :: l2) = foldFS (firstSeen l1 ++ [x]) l2 := by
    rw [firstSeen, foldFS, List.foldl_append, List.foldl_cons]
    rw [show (List.foldl (fun a x => if x ∈ a then a else a ++ [x]) [] l1) = firstSeen l1
      from rfl]
    rw [if_neg hxA]
    rfl
  obtain ⟨r, hr⟩ := foldFS_suffix l2 (firstSeen l1 ++ [x])
  rw [h1, hr, List.append_assoc, List.singleton_append]
  rw [idxIn_append_cons x (firstSeen l1) r hxA]
  exact length_firstSeen_eq_dedup l1

lemma firstPass_types (n_col : Nat) :
    ∀ (rows : List (List String)) (idx : Nat) (acc res : List String),
      firstPass n_col idx acc rows = .ok res →
      res = foldFS acc (rows.map (fun l => l.getD 1 "")) := by
  intro rows
  induction rows with
  | nil => intro idx acc res h; simpa [foldFS] using (Except.ok.inj h).symm
  | cons l ls ih =>
    intro idx acc res h
    simp only [firstPass] at h
    split at h
    · exact absurd h (by simp)
    · split at h
      · exact absurd h (by simp)
      · split at h
        · exact absurd h (by simp)
        · split at h
          · exact absurd h (by simp)
          · split at h
            · exact absurd h (by simp)
            · rw [List.map_cons, foldFS_cons]
              exact ih (idx + 1) _ res h

lemma lookup_enumFrom_map : ∀ (l : List String) (n : Nat) (x : String), l.Nodup → x ∈ l →
    ((List.enumFrom n l).map (fun p => (p.2, p.1))).lookup x = some (n + idxIn l x) := by
  intro l
  induction l with
  | nil => intro n x _ h; cases h
  | cons a t ih =>
    intro n x hnd hx
    by_cases hax : a = x
    · subst hax
      simp [List.enumFrom, List.lookup, idxIn]
    · have hxt : x ∈ t := by
        rcases List.mem_cons.mp hx with h1 | h1
        · exact absurd h1.symm hax
        · exact h1
      have hrec := ih (n + 1) x (List.nodup_cons.mp hnd).2 hxt
      have hbeq : (x == a) = false := by
        simp [beq_iff_eq]
        exact fun h => hax h.symm
      simp only [List.enumFrom, List.map_cons, List.lookup, hbeq, idxIn, if_neg hax]
      rw [hrec]
      exact congrArg some (by omega)

lemma parse_event_table_fields (lines : List (List String)) (b : Bool) (r : EvParse)
    (h : parse_event_table lines b = .ok r) :
    r.event_types = firstSeen ((if b then lines.tail else lines).map (fun l => l.getD 1 ""))
    ∧ r.event_to_int = r.event_types.enum.map (fun p => (p.2, p.1)) := by
  simp only [parse_event_table] at h
  split at h
  · exact absurd h (by simp)
  · rename_i l0 rest heqrows
    split at h
    · exact absurd h (by simp)
    · rename_i types hfp
      rw [heqrows] at hfp
      split at h
      · exact absurd h (by simp)
      · rename_i events sids hsp
        have hr := Except.ok.inj h
        subst hr
        refine ⟨?_, rfl⟩
        show types = _
        rw [heqrows]
        exact firstPass_types l0.length (l0 :: rest) _ [] types hfp

lemma mapM_wtStep_keyError (preds : List ((String × ℚ) × List ℚ)) (t : List (List String)) :
    ∀ L : List Nat,
      (∀ j ∈ L, (pyFloat ((t.getD 1 []).getD (j + 1) "")).isSome = true) →
      (∃ j ∈ L, ∃ d, pyFloat ((t.getD 1 []).getD (j + 1) "") = some d
        ∧ dictLookup preds ((t.getD 0 []).getD (j + 1) "", d) = none) →
      ∃ k, L.mapM (wtStep preds t) = .error (.keyError k) := by
  intro L
  induction L with
  | nil => intro _ hmiss; simp at hmiss
  | cons j L ih =>
    intro hday hmiss
    obtain ⟨d, hd⟩ := Option.isSome_iff_exists.mp (hday j (by simp))
    cases hlook : dictLookup preds ((t.getD 0 []).getD (j + 1) "", d) with
    | none =>
      refine ⟨(t.getD 0 []).getD (j + 1) "" ++ "," ++ toString d, ?_⟩
      have hstep : wtStep preds t j
          = .error (.keyError ((t.getD 0 []).getD (j + 1) "" ++ "," ++ toString d)) := by
        simp only [wtStep, hd, hlook]
      rw [List.mapM_cons, hstep]
      rfl
    | some v =>
      have hstep : wtStep preds t j = .ok v := by simp only [wtStep, hd, hlook]
      obtain ⟨j0, hj0mem, d0, hd0, hlook0⟩ := hmiss
      have hj0 : j0 ∈ L := by
        rcases List.mem_cons.mp hj0mem with rfl | hm
        · rw [hd] at hd0
          obtain rfl := Option.some.inj hd0
          rw [hlook] at hlook0
          exact absurd hlook0 (by simp)
        · exact hm
      obtain ⟨k, hk⟩ := ih (fun j' hj' => hday j' (List.mem_cons_of_mem _ hj'))
        ⟨j0, hj0, d0, hd0, hlook0⟩
      refine ⟨k, ?_⟩
      rw [List.mapM_cons, hstep]
      show (List.mapM (wtStep preds t) L).bind _ = _
      rw [hk]
      rfl

end Luminate

namespace Luminate

/-- Claim C2: for every subject with sorted days `d[0..n-1]` and every event
record `(type t, start s, end e, magnitude m)`, the encoder sets
`effect[i, t] = m` for each index `i < n - 1` such that either `d[i]` lies
within `[s, e]` inclusive, or `s ≥ d[i]`, `e ≤ d[i+1]` and `s < d[i+1]`;
in particular, for days `[1,2,3,6]` and event `(type 0, start 2, end 5,
mag 3)` the effect column is `[0,3,3,0]`, and for days `[0,10]` and event
`(start 3, end 4, mag 2)` the effect column is `[2,0]`. -/
theorem claim_C2 :
    (∀ (days : List ℚ) (eff : Mat) (ev : EventRec) (w i : Nat),
        MatDims eff days.length w → ev.idx < w → i + 1 < days.length →
        windowCond days i ev →
        getMat (applyEvent days ev eff) i ev.idx = ev.size)
    ∧ encodeEvents [1, 2, 3, 6] [⟨0, 2, 5, 3⟩] 1 = [[0], [3], [3], [0]]
    ∧ encodeEvents [0, 10] [⟨0, 3, 4, 2⟩] 1 = [[2], [0]] :=
  ⟨fun days eff ev w i h1 h2 h3 h4 => getMat_applyEvent_window days ev eff w i h1 h2 h3 h4,
   by decide, by decide⟩

/-- Witness for C2: the windowing rule evaluated at days `[1,2,3,6]`, the
event `(type 0, start 2, end 5, mag 3)` and slot `i = 1`. -/
theorem claim_C2_witness :
    MatDims (zeroMat 4 1) ([(1:ℚ), 2, 3, 6].length) 1 ∧ (0:Nat) < 1
    ∧ 1 + 1 < [(1:ℚ), 2, 3, 6].length ∧ windowCond [1, 2, 3, 6] 1 ⟨0, 2, 5, 3⟩
    ∧ getMat (applyEvent [1, 2, 3, 6] ⟨0, 2, 5, 3⟩ (zeroMat 4 1)) 1 0 = 3 :=
  ⟨by decide, by decide, by decide, by decide,
   claim_C2.1 [1, 2, 3, 6] (zeroMat 4 1) ⟨0, 2, 5, 3⟩ 1 1 (by decide) (by decide)
     (by decide) (by decide)⟩

/-- Counterexample for C3: on days `[1,2]`, the event `(type 0, start 2,
end 2, mag 5)` sets the last-day slot of type 0 to `5`, but additionally
processing `(type 0, start 1, end 1, mag 7)` — whose start day differs from
the last day — resets that slot to `0` instead of leaving it unchanged. -/
theorem claim_C3_counterexample :
    getMat (encodeEvents [1, 2] [⟨0, 2, 2, 5⟩] 1) 1 0 = 5
    ∧ getMat (encodeEvents [1, 2] [⟨0, 2, 2, 5⟩, ⟨0, 1, 1, 7⟩] 1) 1 0 = 0 := by
  decide

/-- Claim C3 (amended): processing an event record writes the last day's
slot of its type unconditionally — the magnitude when the event's start day
equals the last day, and `0` otherwise, overwriting any value a previously
processed event of the same type had put there. -/
theorem claim_C3 (days : List ℚ) (eff : Mat) (ev : EventRec) (w : Nat)
    (hdim : MatDims eff days.length w) (hidx : ev.idx < w) (hne : days ≠ []) :
    getMat (applyEvent days ev eff) (days.length - 1) ev.idx
      = if ev.start_day = days.getLastD 0 then ev.size else 0 :=
  getMat_applyEvent_last days ev eff w hdim hidx hne

/-- Witness for C3: the last-day rule evaluated on days `[1,2]` with an
event starting exactly on the last day. -/
theorem claim_C3_witness :
    MatDims (zeroMat 2 1) ([(1:ℚ), 2].length) 1
    ∧ getMat (applyEvent [1, 2] ⟨0, 2, 2, 5⟩ (zeroMat 2 1)) 1 0
        = if (2:ℚ) = List.getLastD [1, 2] 0 then 5 else 0 :=
  ⟨by decide, claim_C3 [1, 2] (zeroMat 2 1) ⟨0, 2, 2, 5⟩ 1 (by decide) (by decide) (by decide)⟩

/-- Counterexample for C1: a subject whose two columns carry the same time
value `1` keeps both entries — the aligned time vector is `[1, 1]`, which is
not strictly increasing, and `Y` has two rows (both copies of the first
duplicate column) rather than one row per distinct time point. -/
theorem claim_C1_counterexample :
    (format_observations [[1, 1], [5, 7]] ["A", "A"] none).T = [[1, 1]]
    ∧ ¬ List.Sorted (· < ·) [(1:ℚ), 1]
    ∧ (format_observations [[1, 1], [5, 7]] ["A", "A"] none).Y = [[[5], [5]]] := by
  decide

/-- Claim C1 (amended): each subject's aligned time vector is sorted in
nondecreasing order and is a permutation of the subject's raw day entries —
duplicate time values are retained, one per column, with `Y` keeping one
row per column (each duplicate position carrying the first such column's
counts) — and the vector is strictly increasing when the subject has no
duplicate time values. -/
theorem claim_C1 (table : Mat) (ids : List String)
    (evInfo : Option (List EventRec × List String × Nat)) (i : Nat)
    (hi : i < (format_observations table ids evInfo).IDs.length) :
    List.Sorted (· ≤ ·) ((format_observations table ids evInfo).T.getD i [])
    ∧ ((format_observations table ids evInfo).T.getD i []).Perm
        ((subjectCols table ids ((format_observations table ids evInfo).IDs.getD i "")).map
          (fun c => c.headD 0))
    ∧ ((format_observations table ids evInfo).Y.getD i []).length
        = ((format_observations table ids evInfo).T.getD i []).length
    ∧ (((subjectCols table ids ((format_observations table ids evInfo).IDs.getD i "")).map
          (fun c => c.headD 0)).Nodup →
        List.Sorted (· < ·) ((format_observations table ids evInfo).T.getD i [])) := by
  have hlen : i < (np_unique ids).length := hi
  have hT : (format_observations table ids evInfo).T.getD i []
      = subjectDays table ids ((np_unique ids).getD i "") := getD_map _ _ i "" [] hlen
  have hY : (format_observations table ids evInfo).Y.getD i []
      = subjectY table ids ((np_unique ids).getD i "") := getD_map _ _ i "" [] hlen
  have hid : (format_observations table ids evInfo).IDs.getD i ""
      = (np_unique ids).getD i "" := rfl
  rw [hT, hY, hid]
  exact ⟨subjectDays_sorted _ _ _, subjectDays_perm _ _ _, subjectY_length _ _ _,
    fun hnd => subjectDays_sorted_lt _ _ _ hnd⟩

/-- Witness for C1: the amended statement evaluated on the duplicate-time
subject of the counterexample. -/
theorem claim_C1_witness :
    List.Sorted (· ≤ ·) ((format_observations [[1, 1], [5, 7]] ["A", "A"] none).T.getD 0 [])
    ∧ ((format_observations [[1, 1], [5, 7]] ["A", "A"] none).T.getD 0 []).Perm
        ((subjectCols [[1, 1], [5, 7]] ["A", "A"]
            ((format_observations [[1, 1], [5, 7]] ["A", "A"] none).IDs.getD 0 "")).map
          (fun c => c.headD 0))
    ∧ ((format_observations [[1, 1], [5, 7]] ["A", "A"] none).Y.getD 0 []).length
        = ((format_observations [[1, 1], [5, 7]] ["A", "A"] none).T.getD 0 []).length
    ∧ (((subjectCols [[1, 1], [5, 7]] ["A", "A"]
            ((format_observations [[1, 1], [5, 7]] ["A", "A"] none).IDs.getD 0 "")).map
          (fun c => c.headD 0)).Nodup →
        List.Sorted (· < ·) ((format_observations [[1, 1], [5, 7]] ["A", "A"] none).T.getD 0 [])) :=
  claim_C1 [[1, 1], [5, 7]] ["A", "A"] none 0 (by decide)

/-- Claim C7: with no event table supplied, every subject's effect matrix
is the `len(days) × 1` zero matrix — one always-zero column per row of the
time vector. -/
theorem claim_C7 (otuLines : List (List String)) (r : Obs × Option (List String))
    (h : load_observations otuLines none = .ok r) (i : Nat) (hi : i < r.1.U.length) :
    r.1.U.getD i [] = List.replicate ((r.1.T.getD i []).length) [(0:ℚ)] := by
  cases hp : parse_otu_table otuLines true with
  | error e => rw [load_observations, hp] at h; exact absurd h (by simp)
  | ok p =>
    obtain ⟨sid, table⟩ := p
    rw [load_observations, hp] at h
    have hr : (format_observations table sid none, (none : Option (List String))) = r :=
      Except.ok.inj h
    subst hr
    have hlen : i < (np_unique sid).length := by
      simpa [format_observations] using hi
    have hU : (format_observations table sid none).U.getD i []
        = subjectU table sid ((np_unique sid).getD i "") none := getD_map _ _ i "" [] hlen
    have hT : (format_observations table sid none).T.getD i []
        = subjectDays table sid ((np_unique sid).getD i "") := getD_map _ _ i "" [] hlen
    show (format_observations table sid none).U.getD i []
        = List.replicate (((format_observations table sid none).T.getD i []).length) [(0:ℚ)]
    rw [hU, hT]
    rfl

/-- Witness for C7: the zero effect matrix of a one-subject, one-day
table. -/
theorem claim_C7_witness :
    (({ IDs := ["s1"], Y := [[[2]]], U := [[[0]]], T := [[1]] } : Obs)).U.getD 0 []
      = List.replicate
          (((({ IDs := ["s1"], Y := [[[2]]], U := [[[0]]], T := [[1]] } : Obs)).T.getD 0 []).length)
          [(0:ℚ)] :=
  claim_C7 [["", "s1"], ["t", "1"], ["o1", "2"]]
    ({ IDs := ["s1"], Y := [[[2]]], U := [[[0]]], T := [[1]] }, none) (by decide) 0 (by decide)

/-- Claim C8: the returned subject ids are the lexicographically sorted
distinct sequence ids of the abundance table, the `Y`, `U`, `T` lists have
the same length as the id list, and at every index the three entries hold
exactly the data of that index's subject, with `Y` and `U` row-aligned
with `T`. -/
theorem claim_C8 (table : Mat) (ids : List String)
    (evInfo : Option (List EventRec × List String × Nat)) :
    List.Sorted (· < ·) (format_observations table ids evInfo).IDs
    ∧ (∀ s, s ∈ (format_observations table ids evInfo).IDs ↔ s ∈ ids)
    ∧ (format_observations table ids evInfo).Y.length
        = (format_observations table ids evInfo).IDs.length
    ∧ (format_observations table ids evInfo).U.length
        = (format_observations table ids evInfo).IDs.length
    ∧ (format_observations table ids evInfo).T.length
        = (format_observations table ids evInfo).IDs.length
    ∧ ∀ i, i < (format_observations table ids evInfo).IDs.length →
        (format_observations table ids evInfo).T.getD i []
            = subjectDays table ids ((format_observations table ids evInfo).IDs.getD i "")
        ∧ (format_observations table ids evInfo).Y.getD i []
            = subjectY table ids ((format_observations table ids evInfo).IDs.getD i "")
        ∧ (format_observations table ids evInfo).U.getD i []
            = subjectU table ids ((format_observations table ids evInfo).IDs.getD i "") evInfo
        ∧ ((format_observations table ids evInfo).Y.getD i []).length
            = ((format_observations table ids evInfo).T.getD i []).length
        ∧ ((format_observations table ids evInfo).U.getD i []).length
            = ((format_observations table ids evInfo).T.getD i []).length := by
  refine ⟨np_unique_sorted ids, fun s => np_unique_mem ids s,
    List.length_map _ _, List.length_map _ _, List.length_map _ _, ?_⟩
  intro i hi
  have hlen : i < (np_unique ids).length := hi
  have hT : (format_observations table ids evInfo).T.getD i []
      = subjectDays table ids ((np_unique ids).getD i "") := getD_map _ _ i "" [] hlen
  have hY : (format_observations table ids evInfo).Y.getD i []
      = subjectY table ids ((np_unique ids).getD i "") := getD_map _ _ i "" [] hlen
  have hU : (format_observations table ids evInfo).U.getD i []
      = subjectU table ids ((np_unique ids).getD i "") evInfo := getD_map _ _ i "" [] hlen
  exact ⟨hT, hY, hU, by rw [hY, hT]; exact subjectY_length _ _ _,
    by rw [hU, hT]; exact subjectU_length _ _ _ _⟩

/-- Witness for C8: sortedness of the ids and the index-0 time vector of a
two-subject table whose columns arrive in reverse id order. -/
theorem claim_C8_witness :
    List.Sorted (· < ·) (format_observations [[2, 1], [5, 7]] ["B", "A"] none).IDs
    ∧ (format_observations [[2, 1], [5, 7]] ["B", "A"] none).T.getD 0 []
        = subjectDays [[2, 1], [5, 7]] ["B", "A"]
            ((format_observations [[2, 1], [5, 7]] ["B", "A"] none).IDs.getD 0 "") :=
  ⟨(claim_C8 [[2, 1], [5, 7]] ["B", "A"] none).1,
   ((claim_C8 [[2, 1], [5, 7]] ["B", "A"] none).2.2.2.2.2 0 (by decide)).1⟩

/-- Claim C9: a successful `parse_event_table` returns a duplicate-free
type-name list containing exactly the names of the input's event-type
column; the integer assigned to each name is the rank of its first
appearance in row order (the count of distinct names appearing strictly
before it), giving a bijection onto `[0, number of distinct names)`; the
`event_to_int` dictionary realizes that assignment; and parsing is a pure
function, so two parses of identical input agree. -/
theorem claim_C9 (lines : List (List String)) (b : Bool) (r : EvParse)
    (h : parse_event_table lines b = .ok r) :
    r.event_types.Nodup
    ∧ (∀ x, x ∈ r.event_types
        ↔ x ∈ (if b then lines.tail else lines).map (fun l => l.getD 1 ""))
    ∧ (∀ l1 x l2, x ∉ l1 →
        (if b then lines.tail else lines).map (fun l => l.getD 1 "") = l1 ++ x :: l2 →
        idxIn r.event_types x = l1.dedup.length)
    ∧ (∀ x ∈ r.event_types, idxIn r.event_types x < r.event_types.length)
    ∧ (∀ x ∈ r.event_types, ∀ y ∈ r.event_types,
        idxIn r.event_types x = idxIn r.event_types y → x = y)
    ∧ (∀ k, k < r.event_types.length → ∃ x ∈ r.event_types, idxIn r.event_types x = k)
    ∧ (∀ x ∈ r.event_types, r.event_to_int.lookup x = some (idxIn r.event_types x))
    ∧ parse_event_table lines b = parse_event_table lines b := by
  obtain ⟨htypes, he2i⟩ := parse_event_table_fields lines b r h
  have hnd : r.event_types.Nodup := by
    rw [htypes]; exact nodup_foldFS _ [] (by simp)
  refine ⟨hnd, ?_, ?_, ?_, ?_, ?_, ?_, rfl⟩
  · intro x
    rw [htypes, firstSeen, mem_foldFS]
    simp
  · intro l1 x l2 hx hsplit
    rw [htypes, hsplit]
    exact firstSeen_rank l1 x l2 hx
  · exact fun x hx => idxIn_lt_length _ x hx
  · intro x hx y hy hxy
    rw [← getD_idxIn _ x hx, ← getD_idxIn _ y hy, hxy]
  · intro k hk
    refine ⟨r.event_types.getD k "", ?_, idxIn_getD _ hnd k hk⟩
    rw [List.getD_eq_getElem _ _ hk]
    exact List.getElem_mem hk
  · intro x hx
    rw [he2i]
    have hl := lookup_enumFrom_map r.event_types 0 x hnd hx
    simpa [List.enum] using hl

/-- Witness for C9: the type index of a three-row event table whose names
appear in the order `b`, `a`, `b` — `a` gets rank 1, the number of distinct
names before its first appearance. -/
theorem claim_C9_witness :
    (["b", "a"] : List String).Nodup
    ∧ idxIn ["b", "a"] "a" = (["b"] : List String).dedup.length :=
  have h := claim_C9
    [["h1", "h2", "h3", "h4"], ["s1", "b", "1", "2"], ["s1", "a", "1", "2"],
      ["s2", "b", "3", "4"]] true
    ⟨[⟨0, 1, 2, 1⟩, ⟨1, 1, 2, 1⟩, ⟨0, 3, 4, 1⟩], [("b", 0), ("a", 1)],
      ["s1", "s1", "s2"], ["b", "a"]⟩ (by decide)
  ⟨h.1, h.2.2.1 ["b"] "a" ["b"] (by decide) (by decide)⟩

/-- Claim C10: the validation pass of `parse_event_table` checks numeric
parseability only for the start-day and end-day columns — any row set whose
rows have matching length and parsable columns 3 and 4 passes it, whatever
the 5th column holds — and a row with a non-numeric magnitude then fails in
the second pass with an uncaught conversion error (`ValueError`), not the
documented `ParseError` path. -/
theorem claim_C10 :
    (∀ (n_col idx : Nat) (acc : List String) (rows : List (List String)),
        (∀ l ∈ rows, l.length = n_col ∧ 3 < l.length
          ∧ (pyFloat (l.getD 2 "")).isSome = true ∧ (pyFloat (l.getD 3 "")).isSome = true) →
        (firstPass n_col idx acc rows).isOk = true)
    ∧ firstPass 5 1 [] [["s1", "abx", "1", "2", "oops"]] = .ok ["abx"]
    ∧ parse_event_table [["seq", "event", "start", "end", "mag"],
        ["s1", "abx", "1", "2", "oops"]] true = .error .valueError := by
  refine ⟨?_, by decide, by decide⟩
  intro n_col idx acc rows
  induction rows generalizing idx acc with
  | nil => intro _; rfl
  | cons l ls ih =>
    intro hall
    obtain ⟨hlen, h3, h2s, h3s⟩ := hall l (by simp)
    obtain ⟨d2, hd2⟩ := Option.isSome_iff_exists.mp h2s
    obtain ⟨d3, hd3⟩ := Option.isSome_iff_exists.mp h3s
    simp only [firstPass]
    split
    · rename_i hc; exact absurd hlen hc
    · split
      · rename_i hc; exact absurd hc (by omega)
      · split
        · rename_i heq; rw [hd2] at heq; exact absurd heq (by simp)
        · split
          · rename_i hc; exact absurd hc (by omega)
          · split
            · rename_i heq; rw [hd3] at heq; exact absurd heq (by simp)
            · exact ih (idx + 1) _ (fun l' hl' => hall l' (List.mem_cons_of_mem _ hl'))

/-- Witness for C10: the validation pass accepted at a concrete row whose
columns 3 and 4 are numeric. -/
theorem claim_C10_witness : (firstPass 4 0 [] [["a", "b", "1", "2"]]).isOk = true :=
  claim_C10.1 4 0 [] [["a", "b", "1", "2"]] (by decide)

/-- Claim C6: `write_table` raises a `KeyError` whenever the reference
table has a (subject id, day) column pair (with a parsable day cell) for
which the supplied predictions hold no entry. -/
theorem claim_C6 (IDs : List String) (Y_pred : List Mat) (T : List (List ℚ))
    (in_table : List (List String))
    (hday : ∀ j ∈ List.range ((in_table.headD []).length - 1),
        (pyFloat ((in_table.getD 1 []).getD (j + 1) "")).isSome = true)
    (hmiss : ∃ j ∈ List.range ((in_table.headD []).length - 1), ∃ d,
        pyFloat ((in_table.getD 1 []).getD (j + 1) "") = some d
        ∧ dictLookup (build_predictions IDs Y_pred T)
            ((in_table.getD 0 []).getD (j + 1) "", d) = none) :
    ∃ k, write_table IDs Y_pred T in_table = .error (.keyError k) :=
  mapM_wtStep_keyError _ _ _ hday hmiss

/-- Witness for C6: a reference table with subjects `A`, `B` and days
`1`, `2` where the prediction for subject `B` at day `2` is omitted. -/
theorem claim_C6_witness :
    ∃ k, write_table ["A", "B"] [[[10], [20]], [[30]]] [[1, 2], [1]]
      [["", "A", "A", "B", "B"], ["", "1", "2", "1", "2"], ["x", "0", "1", "2", "3"]]
      = .error (.keyError k) :=
  claim_C6 ["A", "B"] [[[10], [20]], [[30]]] [[1, 2], [1]]
    [["", "A", "A", "B", "B"], ["", "1", "2", "1", "2"], ["x", "0", "1", "2", "3"]]
    (by decide) ⟨3, by decide, 2, by decide, by decide⟩

/-- Counterexample for C4: a table whose first count row (matrix row
index 1) contains the negative entry `-5` parses successfully — the
negativity check only covers data rows with index greater than 1. -/
theorem claim_C4_counterexample :
    parse_otu_table [["", "s1", "s2"], ["t", "1", "2"], ["o1", "-5", "3"]] true
      = .ok (["s1", "s2"], [[1, 2], [-5, 3]])
    ∧ getMat [[1, 2], [-5, 3]] 1 0 < 0 := by
  decide

/-- Claim C4 (amended): the negative-entry rejection applies to data rows
with index at least 2 only — every successfully parsed table is
non-negative in those rows (so an input with a negative cell there fails),
while a negative cell in row 1, the first count row, is accepted. -/
theorem claim_C4 (lines : List (List String)) (b : Bool) (sid : List String) (t : Mat)
    (h : parse_otu_table lines b = .ok (sid, t)) (i : Nat) (h2 : 2 ≤ i) :
    ∀ x ∈ t.getD i [], 0 ≤ x := by
  cases lines with
  | nil => rw [parse_otu_table] at h; exact absurd h (by simp)
  | cons header rest =>
    simp only [parse_otu_table] at h
    cases hp : parse_otu_table_rows (if b = true then header.length - 1 else header.length)
        b 0 rest with
    | error e => rw [hp] at h; exact absurd h (by simp [Except.map])
    | ok out =>
      rw [hp] at h
      have hmap : (Except.ok ((if b = true then header.tail else header), out)
          : Except PyErr (List String × Mat)) = Except.ok (sid, t) := by
        simpa [Except.map] using h
      have hout : out = t := congrArg Prod.snd (Except.ok.inj hmap)
      exact fun x hx =>
        parse_otu_table_rows_nonneg _ _ rest 0 t (hout ▸ hp) i (by omega) x hx

/-- Witness for C4: the amended statement evaluated on a three-count-row
table at row index 2. -/
theorem claim_C4_witness : (0:ℚ) ≤ getMat [[1], [2], [3]] 2 0 :=
  claim_C4 [["", "s1"], ["t", "1"], ["o1", "2"], ["o2", "3"]] true ["s1"] [[1], [2], [3]]
    (by decide) 2 (by decide) 3 (by decide)

/-- Claim C5 (code bug): parsing a table whose data row 3 has 4 columns
while the header has 5 does fail, but with an uncaught `TypeError` — the
source concatenates the integer column count into the diagnostic without
`str()` — not with the `FormatError` naming row 3 that the spec requires. -/
theorem claim_C5 :
    parse_otu_table [["", "A", "A", "B", "B"], ["t", "1", "2", "1", "2"],
      ["o1", "1", "1", "1", "1"], ["o2", "0", "1", "2", "3"], ["o3", "1", "2", "3"]] true
      = .error .typeError := by
  decide

end Luminate
